import Mathlib

/-!
Verification development for the `astrbot_plugin_tool_prompts` repository
(`src/main.py`, `src/tool_adapter.py`, `src/utils.py`).

The Python sources are shallowly embedded as executable Lean definitions:
pure string processing becomes functions on `String` / `List Char`,
the stateful dispatcher becomes explicit state passing, and the fallible
collaborators (filesystem existence, media download, base64 encoding)
become function parameters returning `Bool` / `Option`.

Modelling conventions:
* Python `str` truthiness is modelled as `≠ ""`; `dict.get` with absent
  keys is modelled with `Option` or explicit `has…` flags.
* Python whitespace (`str.strip`, `\s`) is modelled over its ASCII part
  (space, tab, newline, carriage return, vertical tab, form feed); the
  claims under study involve no exotic Unicode whitespace.
* `os.path.exists` is an abstract parameter `fs : … → Bool`.
-/

set_option maxRecDepth 20000

namespace ToolPrompts

/-! ## Python string helpers -/

/-- ASCII part of Python's whitespace class used by `str.strip` and `\s`. -/
def pyWhitespace (c : Char) : Bool :=
  c = ' ' || c = '\t' || c = '\n' || c = '\r' || c = Char.ofNat 11 || c = Char.ofNat 12

/-- Python `str.strip()` on a list of characters. -/
def pyStripChars (s : List Char) : List Char :=
  ((s.dropWhile pyWhitespace).reverse.dropWhile pyWhitespace).reverse

/-- Python `str.strip()` on a `String`. -/
def pyStrip (s : String) : String :=
  (pyStripChars s.toList).asString

/-- Python `str.lower()` restricted to ASCII case mapping. -/
def pyLower (s : String) : String :=
  (s.toList.map Char.toLower).asString

/-- Python slice `s[a:b]` on a list of characters (clamps, and yields `[]`
when `a ≥ b`, exactly like Python on nonnegative indices). -/
def sliceChars (s : List Char) (a b : Nat) : List Char :=
  (s.take b).drop a

/-- Python `str.startswith`, stated over the underlying character lists so
that it evaluates by plain structural recursion. -/
def strStartsWith (s pre : String) : Bool :=
  pre.toList.isPrefixOf s.toList

/-! ## Model of `src/tool_adapter.py` -/

namespace ToolAdapter

/-- Constant `SD_IMAGE_GEN_PREFIX` from `tool_adapter.py`. -/
def sdImageGenPre : String := "sd_image_gen-generate_sd_image"

/-- Constant `OPENAPI_SPEECH_PREFIX` from `tool_adapter.py`. -/
def openapiSpeechPre : String := "openapi_integrator_mcp-generate_speech"

/-- Constant `GEMINI_EDIT_IMAGE_PREFIX` from `tool_adapter.py`. -/
def geminiEditImagePre : String := "gemini_integrator_mcp-gemini_edit_image"

/-- One entry of the parsed conversation history (`json.loads(conversation.history)`
yields a list of such entries).  Only the fields inspected by
`process_tool_response_from_history` are modelled:
`isDict` is `isinstance(message_entry, dict)`, `role` is `entry.get("role")`,
`hasToolCallId` / `hasContent` model key presence (`"tool_call_id" in entry`),
`toolCallId` is the string value of the key (`""` models a null or empty,
i.e. falsy, value), `contentIsStr` is `isinstance(tool_content_str, str)` and
`content` is its string value when it is a string. -/
structure HistEntry where
  isDict : Bool
  role : String
  hasToolCallId : Bool
  toolCallId : String
  hasContent : Bool
  contentIsStr : Bool
  content : String
deriving DecidableEq

/-- The per-session dispatcher state:
`processed` models `session_processed_indices[session_id]` (a set of history
positions, held as a list) and `lastLen` models
`session_last_history_length.get(session_id)` (`none` when the session was
never recorded; the code reads it with default `-1`). -/
structure SessionState where
  processed : List Nat
  lastLen : Option Nat
deriving DecidableEq

/-- The three-way handler table of `process_tool_response_from_history`. -/
inductive ToolHandler
  | geminiEditImage
  | sdImageGen
  | openapiSpeech
deriving DecidableEq

/-- The `startswith` dispatch chain of lines 248-253 of `tool_adapter.py`
(gemini edit image, then sd image gen, then openapi speech). -/
def matchHandler (name : String) : Option ToolHandler :=
  if strStartsWith name geminiEditImagePre then some ToolHandler.geminiEditImage
  else if strStartsWith name sdImageGenPre then some ToolHandler.sdImageGen
  else if strStartsWith name openapiSpeechPre then some ToolHandler.openapiSpeech
  else none

/-- Lines 226-229: the entry is a dict with role `tool` carrying both a
`tool_call_id` key and a `content` key. -/
def entryWellFormed (e : HistEntry) : Bool :=
  e.isDict && e.role = "tool" && e.hasToolCallId && e.hasContent

/-- Line 235: `not tool_name_from_history or not tool_content_str or not
isinstance(tool_content_str, str)` makes the loop skip the entry; this is
the complement of that condition. -/
def entryComplete (e : HistEntry) : Bool :=
  e.toolCallId ≠ "" && e.content ≠ "" && e.contentIsStr

/-- The backward scan of lines 220-277, expressed over an explicit list of
indices (the code iterates `original_index = L-1-i` for `i = 0..L-1`, i.e.
the indices `L-1, …, 0`).  Each branch is the code's `continue`, except a
matched handler, which returns the handled index (`return` at line 273). -/
def scanIndices (processed : List Nat) (hist : List HistEntry) : List Nat → Option Nat
  | [] => none
  | idx :: rest =>
    match hist.get? idx with
    | none => scanIndices processed hist rest
    | some e =>
      if entryWellFormed e then
        if ¬ entryComplete e then scanIndices processed hist rest
        else if processed.contains idx then scanIndices processed hist rest
        else if (matchHandler e.toolCallId).isSome then some idx
        else scanIndices processed hist rest
      else scanIndices processed hist rest

/-- The full backward scan: newest entry (`position = L-1`) first. -/
def scanHistory (processed : List Nat) (hist : List HistEntry) : Option Nat :=
  scanIndices processed hist (List.range hist.length).reverse

/-- Whether the plugin instance owns a `_save_processed_state` method:
every persistence site of `process_tool_response_from_history` is guarded
by `hasattr(plugin_instance, '_save_processed_state')` (lines 204, 210 and
268 of `tool_adapter.py`).  The dispatcher is invoked from
`handle_message_sent_for_tool_response` in `main.py` with the
`ToolCallNotifierPlugin` instance, and neither that class nor anything
else in the repository defines `_save_processed_state`, so in this
repository the guard is always false and the guarded call never runs. -/
def pluginDefinesSaveHook : Bool := false

/-- Lines 201-211 (`Step 1` reset check and `Step 2` length update):
if the recorded length exists (`last_known_length != -1`) and the current
length is smaller, `processed` is cleared; then, if the recorded length
differs from the current one, it is updated.  After each of the two
mutations the code runs `_save_processed_state()` only when the plugin
instance has that attribute (`hasSaveHook`); the second component counts
the `_save_processed_state()` calls actually made. -/
def resetLenUpdate (hasSaveHook : Bool) (st : SessionState) (curLen : Nat) :
    SessionState × Nat :=
  let cleared :=
    match st.lastLen with
    | some l => decide (curLen < l)
    | none => false
  let processed1 := if cleared then [] else st.processed
  let saves1 := if cleared then (if hasSaveHook then 1 else 0) else 0
  let lenChanged := st.lastLen ≠ some curLen
  let lastLen2 := if lenChanged then some curLen else st.lastLen
  let saves2 := if lenChanged then (if hasSaveHook then 1 else 0) else 0
  (⟨processed1, lastLen2⟩, saves1 + saves2)

/-- Result of one trigger of `process_tool_response_from_history`:
the new session state, the history position whose handler was invoked
(if any), the number of `_save_processed_state()` calls actually made
(zero whenever the plugin instance lacks that method, as it does in this
repository), and the number of outbound messages sent.  Each handler in `tool_adapter.py` sends exactly
one message on every `return True` path and none on a `return False` path,
so `msgs` is `1` when the invoked handler reports success and `0`
otherwise. -/
structure DispatchOutcome where
  state : SessionState
  invoked : Option Nat
  saves : Nat
  msgs : Nat
deriving DecidableEq

/-- One trigger of `process_tool_response_from_history` on a parsed history
list, given that the session-tracking attributes exist (the body is
guarded by a `hasattr` check on them at lines 159-162).  `hasSaveHook` is
`hasattr(plugin_instance, '_save_processed_state')` — `false` for the
plugin class this repository ships — and `handlerResult idx` abstracts
the boolean returned by the matched handler for the entry at position
`idx`.  After a handler runs, the code (lines 265-269) marks the position
processed whenever the result `is True or is False` — which holds for
every boolean — calls `_save_processed_state()` when the hook exists, and
returns. -/
def processToolResponse (hasSaveHook : Bool) (handlerResult : Nat → Bool)
    (st : SessionState) (hist : List HistEntry) : DispatchOutcome :=
  let curLen := hist.length
  let st1 := (resetLenUpdate hasSaveHook st curLen).1
  let saves1 := (resetLenUpdate hasSaveHook st curLen).2
  if curLen = 0 then ⟨st1, none, saves1, 0⟩
  else
    match scanHistory st1.processed hist with
    | some idx =>
      let r := handlerResult idx
      if r = true ∨ r = false then
        ⟨⟨idx :: st1.processed, st1.lastLen⟩, some idx,
          saves1 + (if hasSaveHook then 1 else 0), if r then 1 else 0⟩
      else
        ⟨st1, some idx, saves1, if r then 1 else 0⟩
    | none => ⟨st1, none, saves1, 0⟩

/-- Handleable entry: well formed, complete, and with a registered handler.
Used to state what the scan finds. -/
def handleable (e : HistEntry) : Bool :=
  entryWellFormed e && entryComplete e && (matchHandler e.toolCallId).isSome

/-- Specification-style description of the scan: the first position,
counting from the newest entry, that is handleable and not yet processed. -/
def newestUnprocessed (processed : List Nat) (hist : List HistEntry) : Option Nat :=
  (List.range hist.length).reverse.find? fun idx =>
    match hist.get? idx with
    | some e => handleable e && !(processed.contains idx)
    | none => false

end ToolAdapter

/-! ## Model of `src/main.py` -/

namespace Main

/-- Output of the Pattern Matcher: the media kinds of `_create_media_segment`
plus `none` (the `Comp.Plain` fallback / rejected candidate).  `sound`
models the audio kind (`Comp.Record`, `.wav`). -/
inductive MediaKind
  | image
  | video
  | sound
  | document
  | none
deriving DecidableEq

/-- Lowercasing of a character list, modelling Python `str.lower()` on
ASCII. -/
def lowerChars (s : List Char) : List Char :=
  s.map Char.toLower

/-- The twelve extensions of `_is_media` (line 354 of `main.py`). -/
def mediaExtsC : List (List Char) :=
  [".jpg".toList, ".jpeg".toList, ".png".toList, ".gif".toList,
   ".mp4".toList, ".mov".toList, ".avi".toList, ".wav".toList,
   ".pdf".toList, ".doc".toList, ".docx".toList, ".txt".toList]

/-- Line 354: `any(path_or_url.lower().endswith(ext) for ext in [...])`. -/
def hasMediaExtensionC (p : List Char) : Bool :=
  mediaExtsC.any fun ext => ext.isSuffixOf (lowerChars p)

/-- Line 357: `path_or_url.startswith('/') or re.match(r'^[a-zA-Z]:\\',
path_or_url)` — a POSIX absolute or Windows drive-letter local path. -/
def startsLocalPathC (p : List Char) : Bool :=
  ("/".toList).isPrefixOf p ||
    (match p with
     | c0 :: c1 :: c2 :: _ => c0.isAlpha && c1 = ':' && c2 = '\\'
     | _ => false)

/-- Line 359: `path_or_url.lower().startswith('http:') or
path_or_url.lower().startswith('https:')`. -/
def startsHttpC (p : List Char) : Bool :=
  ("http:".toList).isPrefixOf (lowerChars p) ||
    ("https:".toList).isPrefixOf (lowerChars p)

/-- The `_is_media` method (lines 353-361 of `main.py`); `fs` abstracts
`os.path.exists`. -/
def isMedia (fs : List Char → Bool) (p : List Char) : Bool :=
  if ¬ hasMediaExtensionC p then false
  else if startsLocalPathC p then fs p
  else if startsHttpC p then true
  else false

/-- Image extensions of `_create_media_segment` (line 365). -/
def imageExtsC : List (List Char) :=
  [".jpg".toList, ".jpeg".toList, ".png".toList, ".gif".toList]

/-- Video extensions of `_create_media_segment` (line 368). -/
def videoExtsC : List (List Char) :=
  [".mp4".toList, ".mov".toList, ".avi".toList]

/-- Document extensions of `_create_media_segment` (line 374). -/
def documentExtsC : List (List Char) :=
  [".pdf".toList, ".doc".toList, ".docx".toList, ".txt".toList]

/-- The extension dispatch of `_create_media_segment` (lines 363-378),
reduced to the media kind it selects; the final `Comp.Plain` fallback is
`MediaKind.none`. -/
def segmentKind (p : List Char) : MediaKind :=
  if imageExtsC.any fun ext => ext.isSuffixOf (lowerChars p) then MediaKind.image
  else if videoExtsC.any fun ext => ext.isSuffixOf (lowerChars p) then MediaKind.video
  else if (".wav".toList).isSuffixOf (lowerChars p) then MediaKind.sound
  else if documentExtsC.any fun ext => ext.isSuffixOf (lowerChars p) then MediaKind.document
  else MediaKind.none

/-- The spec's Pattern Matcher: a candidate is classified by
`_create_media_segment`'s extension table once `_is_media` accepts it, and
`none` otherwise. -/
def classifyMedia (fs : List Char → Bool) (p : List Char) : MediaKind :=
  if isMedia fs p then segmentKind p else MediaKind.none

/-- Spec-side definition, written from the claim's words alone, for
comparison with `classifyMedia` on URL candidates: a fixed extension table
(image: jpg/jpeg/png/gif; video: mp4/mov/avi; audio: wav; document:
pdf/doc/docx/txt), with no filesystem or network access. -/
def specExtensionTable (p : List Char) : MediaKind :=
  if [".jpg".toList, ".jpeg".toList, ".png".toList, ".gif".toList].any
      (fun ext => ext.isSuffixOf (lowerChars p)) then MediaKind.image
  else if [".mp4".toList, ".mov".toList, ".avi".toList].any
      (fun ext => ext.isSuffixOf (lowerChars p)) then MediaKind.video
  else if (".wav".toList).isSuffixOf (lowerChars p) then MediaKind.sound
  else if [".pdf".toList, ".doc".toList, ".docx".toList, ".txt".toList].any
      (fun ext => ext.isSuffixOf (lowerChars p)) then MediaKind.document
  else MediaKind.none

/-! ### The two regular expressions and `finditer`

`url_pattern` is `(?:https?:)?//[^\s"'\x60<>()[\x5d\x7b\x7d]+` and
`path_pattern` is `(?:[a-zA-Z]:\\|/)` followed by the same character class
(line 75-76 of `main.py`); both are simple enough to implement directly
with Python's leftmost, greedy, backtracking semantics. -/

/-- Membership in the negated character class shared by both patterns:
anything but whitespace and the characters `"`, `'`, backtick, `<`, `>`,
`(`, `)`, `[`, `]`, `{`, `}`. -/
def allowedChar (c : Char) : Bool :=
  ¬ (pyWhitespace c || c = Char.ofNat 34 || c = Char.ofNat 39 || c = Char.ofNat 96 ||
     c = Char.ofNat 60 || c = Char.ofNat 62 || c = Char.ofNat 40 || c = Char.ofNat 41 ||
     c = Char.ofNat 91 || c = Char.ofNat 93 || c = Char.ofNat 123 || c = Char.ofNat 125)

/-- Length of the maximal (greedy) run of allowed characters at the head. -/
def countAllowed : List Char → Nat
  | [] => 0
  | c :: rest => if allowedChar c then countAllowed rest + 1 else 0

/-- Match a literal prefix followed by a nonempty greedy run of allowed
characters; returns the total matched length. -/
def tryPrefixRun (pre s : List Char) : Option Nat :=
  if pre.isPrefixOf s then
    let run := countAllowed (s.drop pre.length)
    if run = 0 then Option.none else some (pre.length + run)
  else Option.none

/-- Match of `url_pattern` anchored at the head of `s`.  The regex engine
tries the optional group as `https:`, then `http:`, then empty, each
followed by `//` and the run; backtracking collapses to this ordered
three-way choice. -/
def matchUrlAt (s : List Char) : Option Nat :=
  match tryPrefixRun ("https://".toList) s with
  | some n => some n
  | Option.none =>
    match tryPrefixRun ("http://".toList) s with
    | some n => some n
    | Option.none => tryPrefixRun ("//".toList) s

/-- Match of `path_pattern` anchored at the head of `s`: the drive-letter
alternative `[a-zA-Z]:\` first, then the `/` alternative, each followed by
a nonempty run of allowed characters. -/
def matchPathAt (s : List Char) : Option Nat :=
  let drive : Option Nat :=
    match s with
    | c0 :: c1 :: c2 :: rest =>
      if c0.isAlpha && c1 = ':' && c2 = '\\' then
        let run := countAllowed rest
        if run = 0 then Option.none else some (3 + run)
      else Option.none
    | _ => Option.none
  match drive with
  | some n => some n
  | Option.none =>
    match s with
    | c0 :: rest =>
      if c0 = '/' then
        let run := countAllowed rest
        if run = 0 then Option.none else some (1 + run)
      else Option.none
    | [] => Option.none

/-- One match object: start offset, length, and the matched substring
(`match.start()`, `len(group(0))`, `group(0)`). -/
structure RawMatch where
  start : Nat
  len : Nat
  str : List Char
deriving DecidableEq

/-- End offset `match.end()`. -/
def matchEnd (m : RawMatch) : Nat :=
  m.start + m.len

/-- The scan of `re.finditer`: try a match at each position, and resume
after the matched substring (matches never overlap).  `fuel` bounds the
number of steps; `finditer` supplies `text.length`, which suffices because
every step consumes at least one character. -/
def finditerAux (matchAt : List Char → Option Nat) :
    Nat → List Char → Nat → List RawMatch
  | 0, _, _ => []
  | _ + 1, [], _ => []
  | fuel + 1, c :: rest, pos =>
    match matchAt (c :: rest) with
    | some len =>
      ⟨pos, len, (c :: rest).take len⟩ ::
        finditerAux matchAt fuel ((c :: rest).drop len) (pos + len)
    | Option.none => finditerAux matchAt fuel rest (pos + 1)

/-- All non-overlapping matches of a pattern over the text. -/
def finditer (matchAt : List Char → Option Nat) (text : List Char) : List RawMatch :=
  finditerAux matchAt text.length text 0

/-- One `temp_matches[match_str] = match` update (lines 290-296): dict
insertion keyed by the matched substring, replacing the stored match when
the new one is longer, or of equal length with an earlier start; the key's
insertion position is preserved. -/
def updateTempMatches : List RawMatch → RawMatch → List RawMatch
  | [], m => [m]
  | x :: xs, m =>
    if x.str = m.str then
      if m.str.length > x.str.length ∨
          (m.str.length = x.str.length ∧ m.start < x.start) then
        m :: xs
      else x :: xs
    else x :: updateTempMatches xs m

/-- The de-duplication by matched substring over `url_matches +
path_matches` (lines 290-296). -/
def dedupByStr (ms : List RawMatch) : List RawMatch :=
  ms.foldl updateTempMatches []

/-- Stable insertion into a list sorted by a `Nat` key: a new element goes
after existing elements with an equal key, modelling Python's stable
`sorted`. -/
def insertSortedBy {α : Type} (key : α → Nat) (a : α) : List α → List α
  | [] => [a]
  | x :: xs => if key a < key x then a :: x :: xs else x :: insertSortedBy key a xs

/-- Stable sort by a `Nat` key (Python `sorted(xs, key=...)`). -/
def sortedByKey {α : Type} (key : α → Nat) (l : List α) : List α :=
  l.foldl (fun acc a => insertSortedBy key a acc) []

/-- Line 297: `all_matches = sorted(list(temp_matches.values()),
key=lambda m: m.start())` over the union of both patterns' matches. -/
def allMatches (text : List Char) : List RawMatch :=
  sortedByKey (fun m => m.start)
    (dedupByStr (finditer matchUrlAt text ++ finditer matchPathAt text))

/-- Line 307-308: protocol-relative matches get the `https:` scheme. -/
def correctPath (s : List Char) : List Char :=
  if ("//".toList).isPrefixOf s then ("https:".toList) ++ s else s

/-- One surviving item of lines 303-312: the original match and its
corrected path (the spec's `MediaMatch` without the kind field). -/
structure ProcItem where
  original : RawMatch
  corrected : List Char
deriving DecidableEq

/-- The second de-duplication (lines 303-311): walk `all_matches` in start
order, keep an item the first time its corrected path is seen and it is
classified as media; `acc` is the insertion-ordered dict
`temp_processed_items`. -/
def dedupByCorrected (fs : List Char → Bool) :
    List RawMatch → List ProcItem → List ProcItem
  | [], acc => acc
  | m :: rest, acc =>
    if isMedia fs (correctPath m.str) then
      if acc.any fun it => it.corrected = correctPath m.str then dedupByCorrected fs rest acc
      else dedupByCorrected fs rest (acc ++ [⟨m, correctPath m.str⟩])
    else dedupByCorrected fs rest acc

/-- Line 312: `processed_matches = sorted(list(temp_processed_items.values()),
key=lambda item: item['original'].start())`. -/
def processedMatches (fs : List Char → Bool) (text : List Char) : List ProcItem :=
  sortedByKey (fun it => it.original.start)
    (dedupByCorrected fs (allMatches text) [])

/-- An outbound message: plain text (`event.plain_result`) or a media
segment of a given kind (`event.chain_result([...])`); `isUrl` records
whether the `fromURL` or the filesystem constructor was used. -/
inductive OutMsg
  | plain (s : String)
  | media (kind : MediaKind) (isUrl : Bool) (path : String)
deriving DecidableEq

/-- The `_create_media_segment` method (lines 363-378). -/
def createMediaSegment (p : List Char) : OutMsg :=
  let isUrl := startsHttpC p
  if imageExtsC.any fun ext => ext.isSuffixOf (lowerChars p) then
    OutMsg.media MediaKind.image isUrl p.asString
  else if videoExtsC.any fun ext => ext.isSuffixOf (lowerChars p) then
    OutMsg.media MediaKind.video isUrl p.asString
  else if (".wav".toList).isSuffixOf (lowerChars p) then
    OutMsg.media MediaKind.sound isUrl p.asString
  else if documentExtsC.any fun ext => ext.isSuffixOf (lowerChars p) then
    OutMsg.media MediaKind.document isUrl p.asString
  else OutMsg.plain p.asString

/-- The emission loop of lines 319-331: before each media item the
whitespace-stripped text since `last_end` is sent when nonempty, then the
media segment; after the loop the stripped trailing text is sent when
nonempty. -/
def emitLoop (text : List Char) : Nat → List ProcItem → List OutMsg
  | lastEnd, [] =>
    let after := pyStripChars (sliceChars text lastEnd text.length)
    if after ≠ [] then [OutMsg.plain after.asString] else []
  | lastEnd, it :: rest =>
    let before := pyStripChars (sliceChars text lastEnd it.original.start)
    (if before ≠ [] then [OutMsg.plain before.asString] else []) ++
      [createMediaSegment it.corrected] ++ emitLoop text (matchEnd it.original) rest

/-- The text messages among a message list, in order. -/
def textMsgs (msgs : List OutMsg) : List String :=
  msgs.filterMap fun m =>
    match m with
    | OutMsg.plain s => some s
    | OutMsg.media _ _ _ => Option.none

/-- Specification-side description of the inter-match gaps: the slices of
the text between `lastEnd`, each item's span, and the end of the text. -/
def gapsFrom (text : List Char) (lastEnd : Nat) (items : List ProcItem) : List (List Char) :=
  ((lastEnd :: items.map fun it => matchEnd it.original).zip
      ((items.map fun it => it.original.start) ++ [text.length])).map
    fun pr => sliceChars text pr.1 pr.2

/-- The `LLMResponse` fields read by `on_llm_response_handler`. -/
structure LLMResponse where
  role : String
  toolsCallName : List String
  completionText : String
deriving DecidableEq

/-- Result of one run of `on_llm_response_handler`: the messages sent, the
(possibly mutated) response, and the event's
`_media_processed_by_tool_prompts_plugin` flag afterwards. -/
structure RespOutcome where
  msgs : List OutMsg
  resp : LLMResponse
  flagSet : Bool
deriving DecidableEq

/-- The `on_llm_response_handler` hook (lines 271-335): skip when the event
flag is set; notify on tool calls; otherwise run the extraction pipeline
and, when media was found, send the segments, set the flag, and blank the
completion text to a single space. -/
def onLlmResponseHandler (fs : List Char → Bool) (flagSet : Bool)
    (resp : LLMResponse) : RespOutcome :=
  if flagSet then ⟨[], resp, flagSet⟩
  else if resp.role = "tool" ∧ resp.toolsCallName ≠ [] then
    ⟨resp.toolsCallName.map fun n => OutMsg.plain ("正在调用 " ++ n ++ " 工具中……"),
      resp, flagSet⟩
  else if resp.role = "assistant" ∧ resp.completionText ≠ "" then
    let text := resp.completionText.toList
    if allMatches text = [] then ⟨[], resp, flagSet⟩
    else if processedMatches fs text = [] then ⟨[], resp, flagSet⟩
    else
      ⟨emitLoop text 0 (processedMatches fs text),
        { resp with completionText := " " }, true⟩
  else ⟨[], resp, flagSet⟩

/-! ### Context Splicer and Multimodal Part Builder -/

/-- A content part produced by `_prepare_multimodal_parts`: a text part or
an `image_url` part carrying a data URI. -/
inductive ContentPart
  | text (s : String)
  | imageUrl (url : String)
deriving DecidableEq

/-- Content of a conversation-context entry: a plain string, or the list
of parts built for a multimodal entry. -/
inductive CtxContent
  | str (s : String)
  | parts (ps : List ContentPart)
deriving DecidableEq

/-- One role-tagged entry of `req.contexts`. -/
structure CtxEntry where
  role : String
  content : CtxContent
deriving DecidableEq

/-- The fields of `ProviderRequest` touched by `on_llm_request_handler`. -/
structure ProviderRequest where
  contexts : Option (List CtxEntry)
  prompt : String
deriving DecidableEq

/-- The literal prefix of line 499. -/
def quotePre (senderName origName : String) : String :=
  "用户 " ++ senderName ++ " 引用了 " ++ origName ++ " 的消息内容如下:\n\"\"\"\n"

/-- The literal suffix of line 500. -/
def quoteSuf : String := "\n\"\"\""

/-- Test for an `image_url` part (line 494). -/
def isImageUrlPart : ContentPart → Bool
  | ContentPart.imageUrl _ => true
  | ContentPart.text _ => false

/-- Python `" ".join([s for s in xs if s])`. -/
def joinNonempty (xs : List String) : String :=
  String.intercalate " " (xs.filter fun s => s ≠ "")

/-- Flushing of `current_text_batch` (lines 512-516 and 520-523). -/
def flushBatch (batch : List String) : List ContentPart :=
  let combined := joinNonempty batch
  if combined ≠ "" then [ContentPart.text combined] else []

/-- The multimodal batching loop of lines 507-523: text parts are stripped
and accumulated, each `image_url` part flushes the batch before being
appended, and the final batch is flushed at the end. -/
def buildMultimodalLoop : List ContentPart → List String → List ContentPart
  | [], batch => flushBatch batch
  | ContentPart.text s :: rest, batch => buildMultimodalLoop rest (batch ++ [pyStrip s])
  | ContentPart.imageUrl u :: rest, batch =>
    flushBatch batch ++ [ContentPart.imageUrl u] ++ buildMultimodalLoop rest []

/-- Lines 504-525: the `content_parts_for_llm` of the multimodal branch —
stripped prefix text (when nonempty), the batched parts, stripped suffix
text (when nonempty). -/
def buildMultimodalContent (pre suf : String) (parts : List ContentPart) : List ContentPart :=
  (if pyStrip pre ≠ "" then [ContentPart.text (pyStrip pre)] else []) ++
    buildMultimodalLoop parts [] ++
    (if pyStrip suf ≠ "" then [ContentPart.text (pyStrip suf)] else [])

/-- Lines 534-542: the flattened text representation of each part in the
plain-text branch. -/
def flattenedTexts : List ContentPart → List String
  | [] => []
  | ContentPart.text s :: r => pyStrip s :: flattenedTexts r
  | ContentPart.imageUrl u :: r => ("[引用的图片 URL: " ++ u ++ "]") :: flattenedTexts r

/-- Lines 494-552: the `actual_quoted_contexts` list (zero or one `user`
entry) built from the processed parts. -/
def quotedEntries (enabled : Bool) (pre suf : String)
    (parts : List ContentPart) : List CtxEntry :=
  let shouldMulti := enabled && parts.any isImageUrlPart
  if shouldMulti then
    let cps := buildMultimodalContent pre suf parts
    if cps ≠ [] then [⟨"user", CtxContent.parts cps⟩] else []
  else
    let fullText := pyStrip (joinNonempty (flattenedTexts parts))
    if fullText ≠ "" then [⟨"user", CtxContent.str (pre ++ fullText ++ suf)⟩] else []

/-- Lines 485-487: pop the leading `system` entry, if any. -/
def detachSystem (ctxs : List CtxEntry) : Option CtxEntry × List CtxEntry :=
  match ctxs with
  | e :: tl => if e.role = "system" then (some e, tl) else (Option.none, e :: tl)
  | [] => (Option.none, [])

/-- The context-splicing portion of `on_llm_request_handler`
(lines 483-565), as a function of the request, the processed parts of the
quoted message, the multimodal flag, and the two sender names.  When the
parts list is empty the request is untouched (line 483); when the quoted
entry list is empty, line 565 restores the detached system entry only if
the remaining context list is truthy (nonempty). -/
def spliceRequest (enabled : Bool) (senderName origName : String)
    (parts : List ContentPart) (req : ProviderRequest) : ProviderRequest :=
  if parts = [] then req
  else
    let ctxs0 := req.contexts.getD []
    let (sysEntry, rest) := detachSystem ctxs0
    let pre := quotePre senderName origName
    let quoted := quotedEntries enabled pre quoteSuf parts
    if quoted ≠ [] then
      { contexts := some (sysEntry.toList ++ rest ++ quoted), prompt := req.prompt }
    else
      match sysEntry with
      | some se =>
        if rest ≠ [] then { contexts := some (se :: rest), prompt := req.prompt }
        else { contexts := some rest, prompt := req.prompt }
      | Option.none => { contexts := some rest, prompt := req.prompt }

/-- One inbound segment of the quoted message as read by
`_prepare_multimodal_parts` (`seg_data.get('type')`,
`seg_data.get('data', {}).get('text'/'url')`). -/
structure MsgSegment where
  type : String
  text : Option String
  url : Option String
deriving DecidableEq

/-- Python truthiness of an optional string. -/
def truthy : Option String → Bool
  | some s => s ≠ ""
  | Option.none => false

/-- Value extraction with `""` for an absent key. -/
def optVal : Option String → String
  | some s => s
  | Option.none => ""

/-- Placeholder `[引用的图片N URL: u]` (lines 414 and 421). -/
def imgUrlPlaceholder (idx : Nat) (u : String) : String :=
  "[引用的图片" ++ toString (idx + 1) ++ " URL: " ++ u ++ "]"

/-- Placeholder `[引用的图片N，下载失败，URL: u]` (lines 401 and 419). -/
def imgDownloadFail (idx : Nat) (u : String) : String :=
  "[引用的图片" ++ toString (idx + 1) ++ "，下载失败，URL: " ++ u ++ "]"

/-- Placeholder `[引用的图片N，Base64编码失败，URL: u]` (line 417). -/
def imgB64Fail (idx : Nat) (u : String) : String :=
  "[引用的图片" ++ toString (idx + 1) ++ "，Base64编码失败，URL: " ++ u ++ "]"

/-- Placeholder for record/video segments (lines 422-425). -/
def avPlaceholder (idx : Nat) (isRecord : Bool) (u : String) : String :=
  "[引用的" ++ (if isRecord then "语音" else "视频") ++ toString (idx + 1) ++
    " URL: " ++ u ++ " (" ++ (if isRecord then "内容未转录" else "") ++ ")]"

/-- Handling of one segment by `_prepare_multimodal_parts` (lines 390-425).
`download`, `getMime` and `toB64` abstract the fallible collaborators
`download_media`, `get_mime_type` and `file_to_base64`; the second
component of the result lists the URLs for which a fetch was attempted. -/
def prepareSegment (enabled tempOk : Bool) (download : String → Option String)
    (getMime : String → Option String) (toB64 : String → Option String)
    (idx : Nat) (seg : MsgSegment) : List ContentPart × List String :=
  if seg.type = "text" ∧ truthy seg.text then
    ([ContentPart.text (pyStrip (optVal seg.text))], [])
  else if seg.type = "image" ∧ truthy seg.url then
    let u := optVal seg.url
    if enabled then
      if ¬ tempOk then ([ContentPart.text (imgDownloadFail idx u)], [])
      else
        match download u with
        | some file =>
          let mime := (getMime file).getD "image/jpeg"
          match toB64 file with
          | some d =>
            ([ContentPart.imageUrl ("data:" ++ mime ++ ";base64," ++ d),
              ContentPart.text (imgUrlPlaceholder idx u)], [u])
          | Option.none => ([ContentPart.text (imgB64Fail idx u)], [u])
        | Option.none => ([ContentPart.text (imgDownloadFail idx u)], [u])
    else ([ContentPart.text (imgUrlPlaceholder idx u)], [])
  else if (seg.type = "record" ∨ seg.type = "video") ∧ truthy seg.url then
    ([ContentPart.text (avPlaceholder idx (seg.type = "record") (optVal seg.url))], [])
  else ([], [])

/-- The full `_prepare_multimodal_parts` loop over the enumerated
segments. -/
def preparePartsAux (enabled tempOk : Bool) (download getMime toB64 : String → Option String) :
    Nat → List MsgSegment → List ContentPart × List String
  | _, [] => ([], [])
  | idx, seg :: rest =>
    let pr := prepareSegment enabled tempOk download getMime toB64 idx seg
    let pr2 := preparePartsAux enabled tempOk download getMime toB64 (idx + 1) rest
    (pr.1 ++ pr2.1, pr.2 ++ pr2.2)

/-- The `_prepare_multimodal_parts` method (lines 380-426): the built parts
and the attempted fetch URLs. -/
def prepareMultimodalParts (enabled tempOk : Bool)
    (download getMime toB64 : String → Option String)
    (segs : List MsgSegment) : List ContentPart × List String :=
  preparePartsAux enabled tempOk download getMime toB64 0 segs

end Main

/-! ## Concrete example inputs used by witnesses and counterexamples -/

/-- Filesystem oracle on which no local path exists. -/
def fsNone : List Char → Bool := fun _ => false

/-- A history entry holding an `sd_image_gen` tool response. -/
def exToolSd : ToolAdapter.HistEntry :=
  ⟨true, "tool", true, "sd_image_gen-generate_sd_image", true, true, "[]"⟩

/-- A history entry holding an `openapi_integrator_mcp-generate_speech`
tool response. -/
def exToolSpeech : ToolAdapter.HistEntry :=
  ⟨true, "tool", true, "openapi_integrator_mcp-generate_speech", true, true, "[]"⟩

/-- A plain non-tool history entry. -/
def exUser : ToolAdapter.HistEntry :=
  ⟨true, "user", false, "", false, false, ""⟩

/-- History of length 5 with a single registered tool entry at position 3
(the spec's Tool-Result Dispatcher scenario). -/
def exHistFive : List ToolAdapter.HistEntry :=
  [exUser, exUser, exUser, exToolSd, exUser]

/-- History of length 2: the newest entry (position 1) is a registered tool
entry that is already processed, while position 0 holds an older,
never-processed registered entry of a different tool kind. -/
def exHistTwo : List ToolAdapter.HistEntry :=
  [exToolSpeech, exToolSd]

/-- Input text holding one visible media reference written with the
`http:` scheme; its protocol-relative tail `//h/a.png` is a second match
of the path grammar with a distinct corrected path. -/
def exTextC5 : List Char := "a http://h/a.png b".toList

/-- The spec's de-duplication example: a protocol-relative and an explicit
`https:` spelling of the same corrected path. -/
def exTextC6 : List Char := "//host/a.png and https://host/a.png".toList

/-- The single emitted item of the pipeline on `exTextC6`: the
protocol-relative match at offset 0, normalized to the `https:` path. -/
def exItemC6 : Main.ProcItem :=
  ⟨⟨0, 12, "//host/a.png".toList⟩, "https://host/a.png".toList⟩

/-- The later raw match of `exTextC6` (offset 17) normalizing to the same
corrected path. -/
def exMatchC6 : Main.RawMatch := ⟨17, 18, "https://host/a.png".toList⟩

/-! # Theorems -/

namespace ToolAdapter

/-- Helper: the backward scan of the dispatcher is exactly a first-match
search over the given index order for a handleable, not-yet-processed
entry. -/
theorem scanIndices_eq_find (processed : List Nat) (hist : List HistEntry)
    (ixs : List Nat) :
    scanIndices processed hist ixs = ixs.find? fun idx =>
      (match hist.get? idx with
       | some e => handleable e && !(processed.contains idx)
       | Option.none => false) := by
  induction ixs with
  | nil => rfl
  | cons idx rest ih =>
    simp only [scanIndices, List.find?]
    cases hget : hist.get? idx with
    | none => simpa using ih
    | some e =>
      by_cases hwf : entryWellFormed e = true
      · by_cases hc : entryComplete e = true
        · by_cases hp : idx ∈ processed
          · simp [hwf, hc, hp, handleable, ih]
          · cases hh : (matchHandler e.toolCallId).isSome
            · simp [hwf, hc, hp, hh, handleable, ih]
            · simp [hwf, hc, hp, hh, handleable]
        · simp [hwf, hc, handleable, ih]
      · simp [hwf, handleable, ih]

/-- C1 (counterexample).  The claim says the backward scan stops entirely
upon meeting an entry whose position is already processed.  On a history
of length 2 whose newest entry (position 1) is a registered, already
processed tool entry while position 0 holds an older, never-processed
registered entry of a different tool kind, the scan would then invoke no
handler — but the code continues past position 1 and invokes the handler
for position 0. -/
theorem scan_stops_at_processed_counterexample :
    (processToolResponse pluginDefinesSaveHook (fun _ => true) ⟨[1], some 2⟩
      exHistTwo).invoked = some 0 := by
  decide

/-- C1 (amended): when the scan meets an entry whose position is already
in `processedPositions` it skips that entry and continues further back;
the entry handled, if any, is the newest handleable entry (well-formed
`tool` entry with a registered handler) whose position is not yet
processed. -/
theorem scan_skips_processed_and_continues (processed : List Nat) (hist : List HistEntry) :
    scanHistory processed hist = newestUnprocessed processed hist :=
  scanIndices_eq_find processed hist (List.range hist.length).reverse

/-- Helper: closed-form case description of one dispatcher trigger (the
`is True or is False` guard of line 265 holds for every boolean, so it is
eliminated here). -/
theorem processToolResponse_eq (hs : Bool) (hr : Nat → Bool) (st : SessionState)
    (hist : List HistEntry) :
    processToolResponse hs hr st hist =
      if hist.length = 0 then
        ⟨(resetLenUpdate hs st hist.length).1, Option.none,
          (resetLenUpdate hs st hist.length).2, 0⟩
      else
        match scanHistory (resetLenUpdate hs st hist.length).1.processed hist with
        | some idx =>
          ⟨⟨idx :: (resetLenUpdate hs st hist.length).1.processed,
              (resetLenUpdate hs st hist.length).1.lastLen⟩,
            some idx, (resetLenUpdate hs st hist.length).2 + (if hs then 1 else 0),
            if hr idx then 1 else 0⟩
        | Option.none =>
          ⟨(resetLenUpdate hs st hist.length).1, Option.none,
            (resetLenUpdate hs st hist.length).2, 0⟩ := by
  have hbool : ∀ r : Bool, r = true ∨ r = false := fun r => by cases r <;> simp
  unfold processToolResponse
  by_cases h0 : hist.length = 0
  · simp [h0]
  · simp only [if_neg h0]
    cases hscan : scanHistory (resetLenUpdate hs st hist.length).1.processed hist with
    | none => simp
    | some idx =>
      dsimp only
      rw [if_pos (hbool (hr idx))]

/-- Helper: without the `_save_processed_state` attribute the two guarded
persistence sites of the reset and length-update steps run nothing. -/
theorem resetLenUpdate_saves_nohook (st : SessionState) (curLen : Nat) :
    (resetLenUpdate false st curLen).2 = 0 := by
  simp [resetLenUpdate]

/-- C2 (counterexample).  The claim says the invoked entry's position is
added to `processedPositions` *and persisted*.  On the spec's own
scenario (history of length 5, registered entry at position 3, nothing
processed), with the plugin class this repository ships — which defines
no `_save_processed_state` method, so every guarded persistence site is
skipped — the handler is invoked and the position marked, yet zero
`_save_processed_state()` calls are made: nothing is ever persisted. -/
theorem marking_never_persisted_counterexample :
    (processToolResponse pluginDefinesSaveHook (fun _ => true) ⟨[], some 5⟩
      exHistFive).invoked = some 3 ∧
    (processToolResponse pluginDefinesSaveHook (fun _ => true) ⟨[], some 5⟩
      exHistFive).state.processed = [3] ∧
    (processToolResponse pluginDefinesSaveHook (fun _ => true) ⟨[], some 5⟩
      exHistFive).saves = 0 := by
  decide

/-- C2 (amended): per trigger at most one tool result is delivered; when a
handler was invoked for position `idx`, that position is pushed onto the
in-memory processed set regardless of the boolean the handler returns
(state, invocation and saves are independent of the handler results), and
the scan stops; with the plugin class this repository ships the
`hasattr`-guarded persistence sites never run, so no trigger makes any
`_save_processed_state()` call; in the spec's scenario (history of length
5, registered entry at position 3, nothing processed) the first trigger
invokes position 3, marks it, and sends exactly one message, while a
second trigger on the unchanged history sends zero messages. -/
theorem single_delivery_marking_without_persistence :
    (∀ (hs : Bool) (hr : Nat → Bool) (st : SessionState) (hist : List HistEntry),
        (processToolResponse hs hr st hist).msgs ≤ 1) ∧
    (∀ (hs : Bool) (hr : Nat → Bool) (st : SessionState) (hist : List HistEntry) (idx : Nat),
        (processToolResponse hs hr st hist).invoked = some idx →
          (processToolResponse hs hr st hist).state.processed =
            idx :: (resetLenUpdate hs st hist.length).1.processed) ∧
    (∀ (hs : Bool) (hr hr' : Nat → Bool) (st : SessionState) (hist : List HistEntry),
        (processToolResponse hs hr st hist).state = (processToolResponse hs hr' st hist).state ∧
        (processToolResponse hs hr st hist).invoked =
          (processToolResponse hs hr' st hist).invoked ∧
        (processToolResponse hs hr st hist).saves = (processToolResponse hs hr' st hist).saves) ∧
    (∀ (hr : Nat → Bool) (st : SessionState) (hist : List HistEntry),
        (processToolResponse pluginDefinesSaveHook hr st hist).saves = 0) ∧
    ((processToolResponse pluginDefinesSaveHook (fun _ => true) ⟨[], some 5⟩
        exHistFive).invoked = some 3 ∧
     (processToolResponse pluginDefinesSaveHook (fun _ => true) ⟨[], some 5⟩
        exHistFive).state.processed = [3] ∧
     (processToolResponse pluginDefinesSaveHook (fun _ => true) ⟨[], some 5⟩
        exHistFive).msgs = 1 ∧
     (processToolResponse pluginDefinesSaveHook (fun _ => true)
        (processToolResponse pluginDefinesSaveHook (fun _ => true) ⟨[], some 5⟩
          exHistFive).state exHistFive).msgs = 0) := by
  refine ⟨?_, ?_, ?_, ?_, by decide⟩
  · intro hs hr st hist
    rw [processToolResponse_eq]
    by_cases h0 : hist.length = 0
    · simp [h0]
    · rw [if_neg h0]
      cases hscan : scanHistory (resetLenUpdate hs st hist.length).1.processed hist with
      | none => simp
      | some idx =>
        dsimp only
        split <;> simp
  · intro hs hr st hist idx hinv
    rw [processToolResponse_eq] at hinv ⊢
    by_cases h0 : hist.length = 0
    · rw [if_pos h0] at hinv
      exact absurd hinv (by simp)
    · rw [if_neg h0] at hinv ⊢
      cases hscan : scanHistory (resetLenUpdate hs st hist.length).1.processed hist with
      | none =>
        rw [hscan] at hinv
        exact absurd hinv (by simp)
      | some j =>
        rw [hscan] at hinv
        have hji : j = idx := by simpa using hinv
        subst hji
        rfl
  · intro hs hr hr' st hist
    rw [processToolResponse_eq hs hr, processToolResponse_eq hs hr']
    by_cases h0 : hist.length = 0
    · rw [if_pos h0, if_pos h0]
      exact ⟨rfl, rfl, rfl⟩
    · rw [if_neg h0, if_neg h0]
      cases hscan : scanHistory (resetLenUpdate hs st hist.length).1.processed hist with
      | none => exact ⟨rfl, rfl, rfl⟩
      | some idx => exact ⟨rfl, rfl, rfl⟩
  · intro hr st hist
    rw [show pluginDefinesSaveHook = false from rfl, processToolResponse_eq]
    by_cases h0 : hist.length = 0
    · rw [if_pos h0]
      exact resetLenUpdate_saves_nohook st hist.length
    · rw [if_neg h0]
      cases hscan : scanHistory (resetLenUpdate false st hist.length).1.processed hist with
      | none => exact resetLenUpdate_saves_nohook st hist.length
      | some idx =>
        show (resetLenUpdate false st hist.length).2 + (if false then 1 else 0) = 0
        rw [resetLenUpdate_saves_nohook st hist.length]
        rfl

/-- C2 (witness): the marking conjunct instantiated on the length-5
scenario history. -/
theorem single_delivery_marking_witness :
    (processToolResponse pluginDefinesSaveHook (fun _ => true) ⟨[], some 5⟩
      exHistFive).state.processed =
      3 :: (resetLenUpdate pluginDefinesSaveHook (⟨[], some 5⟩ : SessionState)
        exHistFive.length).1.processed :=
  single_delivery_marking_without_persistence.2.1 pluginDefinesSaveHook (fun _ => true)
    ⟨[], some 5⟩ exHistFive 3 (by decide)

/-- C3: when the recorded `lastHistoryLength` exists and the observed
history length is smaller, the reset step (lines 201-211) clears the
processed positions and records the new length; over the whole trigger
the recorded length is the new length and the only position that can be
marked processed is one found by the fresh scan. -/
theorem reset_detection_clears_processed :
    ∀ (hs : Bool) (hr : Nat → Bool) (st : SessionState) (hist : List HistEntry) (l : Nat),
      st.lastLen = some l → hist.length < l →
      (resetLenUpdate hs st hist.length).1.processed = [] ∧
      (resetLenUpdate hs st hist.length).1.lastLen = some hist.length ∧
      (processToolResponse hs hr st hist).state.lastLen = some hist.length ∧
      ((processToolResponse hs hr st hist).state.processed = [] ∨
        ∃ idx, (processToolResponse hs hr st hist).state.processed = [idx]) := by
  intro hs hr st hist l hlast hlt
  have hne : st.lastLen ≠ some hist.length := by
    rw [hlast]
    intro h
    have := Option.some.inj h
    omega
  have hreset : (resetLenUpdate hs st hist.length).1.processed = [] ∧
      (resetLenUpdate hs st hist.length).1.lastLen = some hist.length := by
    simp [resetLenUpdate, hlast, hlt, hne]
  refine ⟨hreset.1, hreset.2, ?_, ?_⟩
  · rw [processToolResponse_eq]
    by_cases h0 : hist.length = 0
    · rw [if_pos h0]
      exact hreset.2
    · rw [if_neg h0]
      cases hscan : scanHistory (resetLenUpdate hs st hist.length).1.processed hist with
      | none => exact hreset.2
      | some idx => exact hreset.2
  · rw [processToolResponse_eq]
    by_cases h0 : hist.length = 0
    · rw [if_pos h0]
      exact Or.inl hreset.1
    · rw [if_neg h0]
      cases hscan : scanHistory (resetLenUpdate hs st hist.length).1.processed hist with
      | none => exact Or.inl hreset.1
      | some idx =>
        refine Or.inr ⟨idx, ?_⟩
        rw [hreset.1]

/-- C3 (witness): the spec's reset example, `lastHistoryLength = 10`,
`processedPositions = {3, 7}`, observed length 2: the processed set is
cleared and the recorded length becomes 2. -/
theorem reset_detection_witness :
    (resetLenUpdate pluginDefinesSaveHook ⟨[3, 7], some 10⟩ (exHistTwo.length)).1.processed = [] ∧
    (resetLenUpdate pluginDefinesSaveHook ⟨[3, 7], some 10⟩ (exHistTwo.length)).1.lastLen =
      some exHistTwo.length ∧
    (processToolResponse pluginDefinesSaveHook (fun _ => true) ⟨[3, 7], some 10⟩
      exHistTwo).state.lastLen = some exHistTwo.length ∧
    ((processToolResponse pluginDefinesSaveHook (fun _ => true) ⟨[3, 7], some 10⟩
        exHistTwo).state.processed = [] ∨
      ∃ idx, (processToolResponse pluginDefinesSaveHook (fun _ => true) ⟨[3, 7], some 10⟩
        exHistTwo).state.processed = [idx]) :=
  reset_detection_clears_processed pluginDefinesSaveHook (fun _ => true) ⟨[3, 7], some 10⟩
    exHistTwo 10 rfl (by decide)

end ToolAdapter

namespace Main

/-- C4 (failing input): a context holding only a system entry, with built
parts that strip to nothing.  The quoted-entry list is empty, the guard
`if system_prompt_entry and req.contexts` of line 565 is false because the
remaining context list is empty, and the detached system entry is dropped:
the resulting context is `[]` instead of keeping the system entry at
index 0. -/
theorem system_entry_dropped_on_empty_rest :
    (spliceRequest false "A" "B" [ContentPart.text ""]
        { contexts := some [⟨"system", CtxContent.str "base"⟩], prompt := "p" }).contexts
      = some [] := by
  decide

/-- C7 (counterexample): the request's outbound prompt `"tell me"` is
non-empty and differs from the last context entry `"hi"`, yet after a
quoted entry is appended the prompt is neither appended as a trailing
`user` entry (the trailing entry is the quoted content) nor unset (it is
still `"tell me"`): `on_llm_request_handler` never touches `req.prompt`
(the assignment is commented out at line 560 of `main.py`). -/
theorem prompt_never_appended_counterexample :
    (spliceRequest false "A" "B" [ContentPart.text "pic"]
        { contexts := some [⟨"user", CtxContent.str "hi"⟩], prompt := "tell me" }) =
      { contexts := some [⟨"user", CtxContent.str "hi"⟩,
          ⟨"user", CtxContent.str "用户 A 引用了 B 的消息内容如下:\n\"\"\"\npic\n\"\"\""⟩],
        prompt := "tell me" } ∧
    CtxContent.str "用户 A 引用了 B 的消息内容如下:\n\"\"\"\npic\n\"\"\"" ≠
      CtxContent.str "tell me" := by
  exact ⟨by decide, by decide⟩

/-- C7 (amended): whenever the Context Splicer appends a quoted-content
entry, the caller's outbound prompt is left untouched (never appended,
never unset) and the quoted entry is the final context entry — nothing is
appended after it. -/
theorem prompt_untouched_quoted_last (enabled : Bool) (senderName origName : String)
    (parts : List ContentPart) (req : ProviderRequest) :
    (spliceRequest enabled senderName origName parts req).prompt = req.prompt ∧
    (parts ≠ [] →
      quotedEntries enabled (quotePre senderName origName) quoteSuf parts ≠ [] →
      (spliceRequest enabled senderName origName parts req).contexts =
        some ((detachSystem (req.contexts.getD [])).1.toList ++
          (detachSystem (req.contexts.getD [])).2 ++
          quotedEntries enabled (quotePre senderName origName) quoteSuf parts)) := by
  constructor
  · simp only [spliceRequest]
    split
    · rfl
    · split
      · rfl
      · cases hsys : (detachSystem (req.contexts.getD [])).1 with
        | none => rfl
        | some se => dsimp only; split <;> rfl
  · intro hp hq
    simp only [spliceRequest, if_neg hp, if_pos hq]

/-- C7 (amended, witness): instantiation on a concrete request with a
non-empty prompt. -/
theorem prompt_untouched_quoted_last_witness :
    (spliceRequest false "A" "B" [ContentPart.text "pic"]
        { contexts := some [⟨"user", CtxContent.str "hi"⟩], prompt := "tell me" }).contexts =
      some ((detachSystem ((some [⟨"user", CtxContent.str "hi"⟩] : Option (List CtxEntry)).getD [])).1.toList ++
        (detachSystem ((some [⟨"user", CtxContent.str "hi"⟩] : Option (List CtxEntry)).getD [])).2 ++
        quotedEntries false (quotePre "A" "B") quoteSuf [ContentPart.text "pic"]) :=
  (prompt_untouched_quoted_last false "A" "B" [ContentPart.text "pic"]
      { contexts := some [⟨"user", CtxContent.str "hi"⟩], prompt := "tell me" }).2
    (by decide) (by decide)

/-- C9: for an image segment with a usable URL, when multimodal processing is
enabled and the fetch or the base64 encoding fails the builder emits a
text placeholder describing the failure (the model is a total function, so
no exception can escape request assembly); when multimodal processing is
disabled it emits the URL-referencing text placeholder and attempts no
fetch (the attempted-fetch list is empty). -/
theorem image_segment_failure_placeholders (tempOk : Bool)
    (download getMime toB64 : String → Option String) (idx : Nat)
    (seg : MsgSegment) (u : String) :
    seg.type = "image" → seg.url = some u → u ≠ "" →
    ((download u = Option.none → tempOk = true →
        prepareSegment true tempOk download getMime toB64 idx seg =
          ([ContentPart.text (imgDownloadFail idx u)], [u])) ∧
     (tempOk = false →
        prepareSegment true tempOk download getMime toB64 idx seg =
          ([ContentPart.text (imgDownloadFail idx u)], [])) ∧
     (∀ f, download u = some f → toB64 f = Option.none → tempOk = true →
        prepareSegment true tempOk download getMime toB64 idx seg =
          ([ContentPart.text (imgB64Fail idx u)], [u])) ∧
     (prepareSegment false tempOk download getMime toB64 idx seg =
        ([ContentPart.text (imgUrlPlaceholder idx u)], []))) := by
  intro htype hurl hu
  have hnottext : ¬ (seg.type = "text" ∧ truthy seg.text = true) := by
    rintro ⟨h, -⟩
    rw [htype] at h
    exact absurd h (by decide)
  have himg : seg.type = "image" ∧ truthy seg.url = true := by
    refine ⟨htype, ?_⟩
    rw [hurl]
    simpa [truthy] using hu
  have hval : optVal seg.url = u := by rw [hurl]; rfl
  refine ⟨?_, ?_, ?_, ?_⟩
  · intro hdl htmp
    simp [prepareSegment, hnottext, himg, hval, htmp, hdl]
  · intro htmp
    simp [prepareSegment, hnottext, himg, hval, htmp]
  · intro f hdl hb htmp
    simp [prepareSegment, hnottext, himg, hval, htmp, hdl, hb]
  · simp [prepareSegment, hnottext, himg, hval]

/-- C9 (witness): concrete instantiation with a failing download, a
failing encoder and the disabled switch. -/
theorem image_segment_failure_placeholders_witness :
    (prepareSegment true true (fun _ => Option.none) (fun _ => Option.none)
        (fun _ => Option.none) 0 ⟨"image", Option.none, some "https://h/a.png"⟩ =
      ([ContentPart.text (imgDownloadFail 0 "https://h/a.png")], ["https://h/a.png"])) ∧
    (prepareSegment false true (fun _ => Option.none) (fun _ => Option.none)
        (fun _ => Option.none) 0 ⟨"image", Option.none, some "https://h/a.png"⟩ =
      ([ContentPart.text (imgUrlPlaceholder 0 "https://h/a.png")], [])) :=
  ⟨(image_segment_failure_placeholders true (fun _ => Option.none) (fun _ => Option.none)
      (fun _ => Option.none) 0 ⟨"image", Option.none, some "https://h/a.png"⟩
      "https://h/a.png" rfl rfl (by decide)).1 rfl rfl,
   (image_segment_failure_placeholders true (fun _ => Option.none) (fun _ => Option.none)
      (fun _ => Option.none) 0 ⟨"image", Option.none, some "https://h/a.png"⟩
      "https://h/a.png" rfl rfl (by decide)).2.2.2⟩

/-- Helper: a URL candidate starts, after lowercasing, with `h` then `t`
(both `http:` and `https:` do). -/
theorem startsHttpC_two_chars (p : List Char) (h : startsHttpC p = true) :
    ∃ c0 c1 rest, p = c0 :: c1 :: rest ∧ c0.toLower = 'h' ∧ c1.toLower = 't' := by
  have hpre : ("ht".toList) <+: lowerChars p := by
    unfold startsHttpC at h
    have h2 : ("http:".toList).isPrefixOf (lowerChars p) = true ∨
        ("https:".toList).isPrefixOf (lowerChars p) = true := by
      simpa using h
    rcases h2 with h' | h'
    · have hp := List.isPrefixOf_iff_prefix.mp h'
      exact List.IsPrefix.trans (by decide) hp
    · have hp := List.isPrefixOf_iff_prefix.mp h'
      exact List.IsPrefix.trans (by decide) hp
  obtain ⟨t, ht⟩ := hpre
  cases p with
  | nil => simp [lowerChars] at ht
  | cons c0 p1 =>
    cases p1 with
    | nil => simp [lowerChars] at ht
    | cons c1 p2 =>
      simp only [show ("ht".toList) = ['h', 't'] from rfl, lowerChars, List.map_cons,
        List.cons_append, List.nil_append, List.cons.injEq] at ht
      exact ⟨c0, c1, p2, rfl, ht.1.symm, ht.2.1.symm⟩

/-- Helper: a URL candidate is never a local-path candidate (its first two
characters rule out both the POSIX and the drive-letter grammar). -/
theorem startsHttpC_not_local (p : List Char) (h : startsHttpC p = true) :
    startsLocalPathC p = false := by
  obtain ⟨c0, c1, rest, rfl, h0, h1⟩ := startsHttpC_two_chars p h
  have hc0 : ('/' == c0) = false := by
    refine beq_eq_false_iff_ne.mpr fun he => ?_
    rw [← he] at h0
    exact absurd h0 (by decide)
  have hc1 : decide (c1 = ':') = false := by
    refine decide_eq_false fun he => ?_
    rw [he] at h1
    exact absurd h1 (by decide)
  unfold startsLocalPathC
  cases rest with
  | nil => simp [show ("/".toList) = ['/'] from rfl, List.isPrefixOf, hc0]
  | cons c2 r2 => simp [show ("/".toList) = ['/'] from rfl, List.isPrefixOf, hc0, hc1]

/-- Helper: on a URL candidate, `_is_media` reduces to the extension test
alone, for every filesystem oracle. -/
theorem isMedia_http (g : List Char → Bool) (p : List Char)
    (h : startsHttpC p = true) : isMedia g p = hasMediaExtensionC p := by
  have hl := startsHttpC_not_local p h
  unfold isMedia
  by_cases hext : hasMediaExtensionC p = true
  · simp [hext, hl, h]
  · simp [hext]

/-- C8: a local-path candidate (POSIX absolute or Windows drive-letter)
that does not exist on the filesystem is classified `none` even when it
carries a media extension, while a URL candidate is classified from its
extension alone — for any two filesystem oracles the classification
agrees, and it equals the spec's fixed extension table (image:
jpg/jpeg/png/gif; video: mp4/mov/avi; audio: wav; document:
pdf/doc/docx/txt); no reachability check is involved. -/
theorem local_needs_existence_url_extension_only (fs fs' : List Char → Bool) (p : List Char) :
    (startsLocalPathC p = true → fs p = false → classifyMedia fs p = MediaKind.none) ∧
    (startsHttpC p = true →
      classifyMedia fs p = classifyMedia fs' p ∧
      classifyMedia fs p = specExtensionTable p) := by
  constructor
  · intro hl hfs
    unfold classifyMedia isMedia
    by_cases hext : hasMediaExtensionC p = true
    · simp [hext, hl, hfs]
    · simp [hext]
  · intro hh
    refine ⟨by unfold classifyMedia; rw [isMedia_http fs p hh, isMedia_http fs' p hh], ?_⟩
    unfold classifyMedia
    rw [isMedia_http fs p hh]
    by_cases hext : hasMediaExtensionC p = true
    · rw [if_pos hext]
      rfl
    · rw [if_neg hext]
      simp only [hasMediaExtensionC, mediaExtsC, List.any_cons, List.any_nil,
        Bool.or_false, Bool.or_eq_true] at hext
      push_neg at hext
      obtain ⟨n1, n2, n3, n4, n5, n6, n7, n8, n9, n10, n11, n12⟩ := hext
      have m1 : ¬ (['.', 'j', 'p', 'g'] <:+ lowerChars p) :=
        fun hc => n1 (List.isSuffixOf_iff_suffix.mpr hc)
      have m2 : ¬ (['.', 'j', 'p', 'e', 'g'] <:+ lowerChars p) :=
        fun hc => n2 (List.isSuffixOf_iff_suffix.mpr hc)
      have m3 : ¬ (['.', 'p', 'n', 'g'] <:+ lowerChars p) :=
        fun hc => n3 (List.isSuffixOf_iff_suffix.mpr hc)
      have m4 : ¬ (['.', 'g', 'i', 'f'] <:+ lowerChars p) :=
        fun hc => n4 (List.isSuffixOf_iff_suffix.mpr hc)
      have m5 : ¬ (['.', 'm', 'p', '4'] <:+ lowerChars p) :=
        fun hc => n5 (List.isSuffixOf_iff_suffix.mpr hc)
      have m6 : ¬ (['.', 'm', 'o', 'v'] <:+ lowerChars p) :=
        fun hc => n6 (List.isSuffixOf_iff_suffix.mpr hc)
      have m7 : ¬ (['.', 'a', 'v', 'i'] <:+ lowerChars p) :=
        fun hc => n7 (List.isSuffixOf_iff_suffix.mpr hc)
      have m8 : ¬ (['.', 'w', 'a', 'v'] <:+ lowerChars p) :=
        fun hc => n8 (List.isSuffixOf_iff_suffix.mpr hc)
      have m9 : ¬ (['.', 'p', 'd', 'f'] <:+ lowerChars p) :=
        fun hc => n9 (List.isSuffixOf_iff_suffix.mpr hc)
      have m10 : ¬ (['.', 'd', 'o', 'c'] <:+ lowerChars p) :=
        fun hc => n10 (List.isSuffixOf_iff_suffix.mpr hc)
      have m11 : ¬ (['.', 'd', 'o', 'c', 'x'] <:+ lowerChars p) :=
        fun hc => n11 (List.isSuffixOf_iff_suffix.mpr hc)
      have m12 : ¬ (['.', 't', 'x', 't'] <:+ lowerChars p) :=
        fun hc => n12 (List.isSuffixOf_iff_suffix.mpr hc)
      simp [specExtensionTable, m1, m2, m3, m4, m5, m6, m7, m8, m9, m10, m11, m12]

/-- C8 (witness): a nonexistent local path with a media extension is
`none`; a URL candidate's class does not depend on the filesystem and
follows the extension table. -/
theorem local_needs_existence_url_extension_only_witness :
    classifyMedia fsNone ("/tmp/a.png".toList) = MediaKind.none ∧
    classifyMedia fsNone ("https://h/a.png".toList) =
      classifyMedia (fun _ => true) ("https://h/a.png".toList) ∧
    classifyMedia fsNone ("https://h/a.png".toList) =
      specExtensionTable ("https://h/a.png".toList) :=
  ⟨(local_needs_existence_url_extension_only fsNone (fun _ => true) ("/tmp/a.png".toList)).1
      (by decide) rfl,
   (local_needs_existence_url_extension_only fsNone (fun _ => true) ("https://h/a.png".toList)).2
      (by decide)⟩

/-- Helper: stable insertion permutes to consing the new element. -/
theorem perm_insertSortedBy {α : Type} (key : α → Nat) (a : α) (l : List α) :
    (insertSortedBy key a l).Perm (a :: l) := by
  induction l with
  | nil => exact List.Perm.refl _
  | cons x xs ih =>
    unfold insertSortedBy
    split
    · exact List.Perm.refl _
    · exact (ih.cons x).trans (List.Perm.swap a x xs)

/-- Helper: the stable sort is a permutation of its input. -/
theorem sortedByKey_perm {α : Type} (key : α → Nat) (l : List α) :
    (sortedByKey key l).Perm l := by
  suffices h : ∀ acc : List α,
      (l.foldl (fun acc a => insertSortedBy key a acc) acc).Perm (l ++ acc) by
    simpa [sortedByKey] using h []
  induction l with
  | nil => intro acc; simp
  | cons x xs ih =>
    intro acc
    have h1 := ih (insertSortedBy key x acc)
    have h2 : (xs ++ insertSortedBy key x acc).Perm (xs ++ x :: acc) :=
      (perm_insertSortedBy key x acc).append_left xs
    have h3 : (xs ++ x :: acc).Perm (x :: (xs ++ acc)) := List.perm_middle
    simpa using h1.trans (h2.trans h3)

/-- Helper: stable insertion preserves sortedness by the key. -/
theorem pairwise_insertSortedBy {α : Type} (key : α → Nat) (a : α) (l : List α)
    (h : l.Pairwise fun x y => key x ≤ key y) :
    (insertSortedBy key a l).Pairwise fun x y => key x ≤ key y := by
  induction l with
  | nil => simp [insertSortedBy]
  | cons x xs ih =>
    rcases List.pairwise_cons.mp h with ⟨hx, hxs⟩
    unfold insertSortedBy
    split
    · rename_i hlt
      refine List.pairwise_cons.mpr ⟨?_, h⟩
      intro y hy
      rcases List.mem_cons.mp hy with rfl | hy2
      · exact Nat.le_of_lt hlt
      · exact Nat.le_trans (Nat.le_of_lt hlt) (hx y hy2)
    · rename_i hge
      refine List.pairwise_cons.mpr ⟨?_, ih hxs⟩
      intro y hy
      rcases List.mem_cons.mp ((perm_insertSortedBy key a xs).mem_iff.mp hy) with rfl | hy2
      · exact Nat.le_of_not_lt hge
      · exact hx y hy2

/-- Helper: the stable sort output is sorted by the key. -/
theorem sortedByKey_pairwise {α : Type} (key : α → Nat) (l : List α) :
    (sortedByKey key l).Pairwise fun x y => key x ≤ key y := by
  suffices h : ∀ acc : List α, (acc.Pairwise fun x y => key x ≤ key y) →
      ((l.foldl (fun acc a => insertSortedBy key a acc) acc).Pairwise
        fun x y => key x ≤ key y) by
    exact h [] List.Pairwise.nil
  induction l with
  | nil => intro acc hacc; simpa using hacc
  | cons x xs ih =>
    intro acc hacc
    simpa using ih (insertSortedBy key x acc) (pairwise_insertSortedBy key x acc hacc)

/-- Helper: `textMsgs` distributes over append. -/
theorem textMsgs_append (a b : List OutMsg) :
    textMsgs (a ++ b) = textMsgs a ++ textMsgs b := by
  simp [textMsgs, List.filterMap_append]

/-- Helper: the four extension groups of `_create_media_segment` cover
the twelve extensions of `_is_media`. -/
theorem segment_groups_cover (p : List Char) (h : hasMediaExtensionC p = true) :
    (imageExtsC.any fun ext => ext.isSuffixOf (lowerChars p)) = true ∨
    (videoExtsC.any fun ext => ext.isSuffixOf (lowerChars p)) = true ∨
    ((".wav".toList).isSuffixOf (lowerChars p)) = true ∨
    (documentExtsC.any fun ext => ext.isSuffixOf (lowerChars p)) = true := by
  simp only [hasMediaExtensionC, mediaExtsC, List.any_cons, List.any_nil, Bool.or_false,
    Bool.or_eq_true] at h
  simp only [imageExtsC, videoExtsC, documentExtsC, List.any_cons, List.any_nil,
    Bool.or_false, Bool.or_eq_true]
  tauto

/-- Helper: on a path carrying a media extension, `_create_media_segment`
produces a media segment, never a plain-text one. -/
theorem createMediaSegment_no_text (p : List Char) (h : hasMediaExtensionC p = true) :
    textMsgs [createMediaSegment p] = [] := by
  have hcover := segment_groups_cover p h
  cases hseg : createMediaSegment p with
  | media k u q => simp [textMsgs, hseg]
  | plain s =>
    exfalso
    unfold createMediaSegment at hseg
    split at hseg
    · exact absurd hseg (by simp)
    · split at hseg
      · exact absurd hseg (by simp)
      · split at hseg
        · exact absurd hseg (by simp)
        · split at hseg
          · exact absurd hseg (by simp)
          · rename_i h1 h2 h3 h4
            rcases hcover with hc | hc | hc | hc
            · exact h1 hc
            · exact h2 hc
            · exact h3 hc
            · exact h4 hc

/-- Helper: a path accepted by `_is_media` carries a media extension. -/
theorem hasExt_of_isMedia (g : List Char → Bool) (p : List Char)
    (h : isMedia g p = true) : hasMediaExtensionC p = true := by
  by_cases hext : hasMediaExtensionC p = true
  · exact hext
  · unfold isMedia at h
    rw [if_pos hext] at h
    exact absurd h (by decide)

/-- Helper: the gap list on no items is the single trailing slice. -/
theorem gapsFrom_nil (text : List Char) (lastEnd : Nat) :
    gapsFrom text lastEnd [] = [sliceChars text lastEnd text.length] := by
  simp [gapsFrom]

/-- Helper: the gap list peels off the slice before the first item. -/
theorem gapsFrom_cons (text : List Char) (lastEnd : Nat) (it : ProcItem)
    (rest : List ProcItem) :
    gapsFrom text lastEnd (it :: rest) =
      sliceChars text lastEnd it.original.start ::
        gapsFrom text (matchEnd it.original) rest := by
  simp [gapsFrom]

/-- Helper: the text messages of the emission loop are exactly the
nonempty whitespace-stripped inter-match gaps, for any starting
`last_end`. -/
theorem textMsgs_emitLoop (text : List Char) (items : List ProcItem) :
    ∀ lastEnd : Nat,
      (∀ it ∈ items, hasMediaExtensionC it.corrected = true) →
      textMsgs (emitLoop text lastEnd items) =
        (((gapsFrom text lastEnd items).map pyStripChars).filter fun g => g ≠ []).map
          List.asString := by
  induction items with
  | nil =>
    intro lastEnd _
    rw [gapsFrom_nil]
    by_cases hafter : pyStripChars (sliceChars text lastEnd text.length) = []
    · simp [emitLoop, hafter, textMsgs]
    · simp [emitLoop, hafter, textMsgs]
  | cons it rest ih =>
    intro lastEnd hmedia
    have hit : hasMediaExtensionC it.corrected = true := hmedia it (by simp)
    have hrest : ∀ x ∈ rest, hasMediaExtensionC x.corrected = true :=
      fun x hx => hmedia x (by simp [hx])
    rw [gapsFrom_cons]
    show textMsgs
        ((if pyStripChars (sliceChars text lastEnd it.original.start) ≠ [] then
            [OutMsg.plain (pyStripChars (sliceChars text lastEnd it.original.start)).asString]
          else []) ++ [createMediaSegment it.corrected] ++
          emitLoop text (matchEnd it.original) rest) = _
    rw [textMsgs_append, textMsgs_append, createMediaSegment_no_text it.corrected hit,
      ih (matchEnd it.original) hrest]
    by_cases hbefore : pyStripChars (sliceChars text lastEnd it.original.start) = []
    · simp [hbefore, textMsgs]
    · simp [hbefore, textMsgs]

/-- Helper: the accumulator survives into the de-duplication result. -/
theorem subset_dedupByCorrected (fs : List Char → Bool) :
    ∀ (ms : List RawMatch) (acc : List ProcItem) (it : ProcItem),
      it ∈ acc → it ∈ dedupByCorrected fs ms acc := by
  intro ms
  induction ms with
  | nil => intro acc it h; simpa [dedupByCorrected] using h
  | cons m rest ih =>
    intro acc it h
    simp only [dedupByCorrected]
    split
    · split
      · exact ih acc it h
      · exact ih (acc ++ [⟨m, correctPath m.str⟩]) it (by simp [h])
    · exact ih acc it h

/-- Helper: full characterization of the corrected-path de-duplication.
Provided the input is sorted by start and the accumulator's keys are
distinct and already earliest, the result keeps at most one item per
corrected path, every kept item stems from a surviving media match, and
the kept item has the earliest start among its corrected path's media
matches. -/
theorem dedupByCorrected_spec (fs : List Char → Bool) :
    ∀ (ms : List RawMatch) (acc : List ProcItem),
      (ms.Pairwise fun a b => a.start ≤ b.start) →
      (∀ it ∈ acc, ∀ m ∈ ms, correctPath m.str = it.corrected →
        it.original.start ≤ m.start) →
      ((acc.map fun it => it.corrected).Nodup) →
      ((∀ it ∈ dedupByCorrected fs ms acc,
          it ∈ acc ∨ (it.original ∈ ms ∧ it.corrected = correctPath it.original.str ∧
            isMedia fs it.corrected = true ∧
            ¬ it.corrected ∈ (acc.map fun x => x.corrected))) ∧
        (((dedupByCorrected fs ms acc).map fun it => it.corrected).Nodup) ∧
        (∀ it ∈ dedupByCorrected fs ms acc, ∀ m ∈ ms,
          isMedia fs (correctPath m.str) = true → correctPath m.str = it.corrected →
          it.original.start ≤ m.start)) := by
  intro ms
  induction ms with
  | nil =>
    intro acc hsort hacc hkeys
    refine ⟨fun it hit => Or.inl (by simpa [dedupByCorrected] using hit), ?_, ?_⟩
    · simpa [dedupByCorrected] using hkeys
    · intro it _ m hm
      exact absurd hm (List.not_mem_nil m)
  | cons m0 rest ih =>
    intro acc hsort hacc hkeys
    rcases List.pairwise_cons.mp hsort with ⟨hm0le, hsort'⟩
    by_cases hmed : isMedia fs (correctPath m0.str) = true
    · by_cases hdup : (acc.any fun it => it.corrected = correctPath m0.str) = true
      · have heq : dedupByCorrected fs (m0 :: rest) acc = dedupByCorrected fs rest acc := by
          simp [dedupByCorrected, hmed, hdup]
        have hacc' : ∀ it ∈ acc, ∀ m ∈ rest, correctPath m.str = it.corrected →
            it.original.start ≤ m.start :=
          fun it hit m hm hkey => hacc it hit m (List.mem_cons_of_mem m0 hm) hkey
        obtain ⟨p1, p2, p3⟩ := ih acc hsort' hacc' hkeys
        rw [heq]
        refine ⟨?_, p2, ?_⟩
        · intro it hit
          rcases p1 it hit with h | ⟨ho, hc, hm2, hk⟩
          · exact Or.inl h
          · exact Or.inr ⟨List.mem_cons_of_mem m0 ho, hc, hm2, hk⟩
        · intro it hit m hm hmmed hmkey
          rcases List.mem_cons.mp hm with rfl | hm2
          · rcases p1 it hit with hin | ⟨ho, hc, hm3, hk⟩
            · exact hacc it hin m (List.mem_cons_self m rest) hmkey
            · rcases List.any_eq_true.mp hdup with ⟨it0, hit0, hd⟩
              exact absurd
                (List.mem_map.mpr ⟨it0, hit0, (of_decide_eq_true hd).trans hmkey⟩) hk
          · exact p3 it hit m hm2 hmmed hmkey
      · have heq : dedupByCorrected fs (m0 :: rest) acc =
            dedupByCorrected fs rest (acc ++ [⟨m0, correctPath m0.str⟩]) := by
          simp [dedupByCorrected, hmed, hdup]
        have hkfree : ∀ it0 ∈ acc, it0.corrected ≠ correctPath m0.str := by
          intro it0 hit0 hk0
          exact hdup (List.any_eq_true.mpr ⟨it0, hit0, decide_eq_true hk0⟩)
        have hacc' : ∀ it ∈ acc ++ [(⟨m0, correctPath m0.str⟩ : ProcItem)], ∀ m ∈ rest,
            correctPath m.str = it.corrected → it.original.start ≤ m.start := by
          intro it hit m hm hkey
          rcases List.mem_append.mp hit with h | h
          · exact hacc it h m (List.mem_cons_of_mem m0 hm) hkey
          · have hitm : it = ⟨m0, correctPath m0.str⟩ := by simpa using h
            subst hitm
            exact hm0le m hm
        have hkeys' :
            ((acc ++ [(⟨m0, correctPath m0.str⟩ : ProcItem)]).map
              fun it => it.corrected).Nodup := by
          rw [List.map_append]
          refine List.Nodup.append hkeys (by simp) ?_
          intro a ha hb
          rcases List.mem_map.mp ha with ⟨it0, hit0, rfl⟩
          have hb2 : it0.corrected = correctPath m0.str := by simpa using hb
          exact hkfree it0 hit0 hb2
        obtain ⟨p1, p2, p3⟩ := ih (acc ++ [⟨m0, correctPath m0.str⟩]) hsort' hacc' hkeys'
        rw [heq]
        refine ⟨?_, p2, ?_⟩
        · intro it hit
          rcases p1 it hit with h | ⟨ho, hc, hm2, hk⟩
          · rcases List.mem_append.mp h with h2 | h2
            · exact Or.inl h2
            · have hitm : it = ⟨m0, correctPath m0.str⟩ := by simpa using h2
              subst hitm
              refine Or.inr ⟨List.mem_cons_self m0 rest, rfl, hmed, ?_⟩
              intro hk2
              rcases List.mem_map.mp hk2 with ⟨it0, hit0, hik⟩
              exact hkfree it0 hit0 hik
          · refine Or.inr ⟨List.mem_cons_of_mem m0 ho, hc, hm2, ?_⟩
            intro hk2
            apply hk
            rw [List.map_append]
            exact List.mem_append_left _ hk2
        · intro it hit m hm hmmed hmkey
          rcases List.mem_cons.mp hm with rfl | hm2
          · rcases p1 it hit with hin | ⟨ho, hc, hm3, hk⟩
            · rcases List.mem_append.mp hin with h2 | h2
              · exact absurd hmkey.symm (hkfree it h2)
              · have hitm : it = ⟨m, correctPath m.str⟩ := by simpa using h2
                subst hitm
                exact Nat.le_refl _
            · exfalso
              apply hk
              rw [List.map_append]
              refine List.mem_append_right _ ?_
              simp [← hmkey]
          · exact p3 it hit m hm2 hmmed hmkey
    · have heq : dedupByCorrected fs (m0 :: rest) acc = dedupByCorrected fs rest acc := by
        simp [dedupByCorrected, hmed]
      have hacc' : ∀ it ∈ acc, ∀ m ∈ rest, correctPath m.str = it.corrected →
          it.original.start ≤ m.start :=
        fun it hit m hm hkey => hacc it hit m (List.mem_cons_of_mem m0 hm) hkey
      obtain ⟨p1, p2, p3⟩ := ih acc hsort' hacc' hkeys
      rw [heq]
      refine ⟨?_, p2, ?_⟩
      · intro it hit
        rcases p1 it hit with h | ⟨ho, hc, hm2, hk⟩
        · exact Or.inl h
        · exact Or.inr ⟨List.mem_cons_of_mem m0 ho, hc, hm2, hk⟩
      · intro it hit m hm hmmed hmkey
        rcases List.mem_cons.mp hm with rfl | hm2
        · exact absurd hmmed hmed
        · exact p3 it hit m hm2 hmmed hmkey

/-- Helper: every surviving media match is represented in the
de-duplication result. -/
theorem dedupByCorrected_complete (fs : List Char → Bool) :
    ∀ (ms : List RawMatch) (acc : List ProcItem) (m : RawMatch),
      m ∈ ms → isMedia fs (correctPath m.str) = true →
      ∃ it ∈ dedupByCorrected fs ms acc, it.corrected = correctPath m.str := by
  intro ms
  induction ms with
  | nil => intro acc m hm _; exact absurd hm (List.not_mem_nil m)
  | cons m0 rest ih =>
    intro acc m hm hmed
    rcases List.mem_cons.mp hm with rfl | hm2
    · by_cases hdup : (acc.any fun it => it.corrected = correctPath m.str) = true
      · rcases List.any_eq_true.mp hdup with ⟨it0, hit0, hd⟩
        have heq : dedupByCorrected fs (m :: rest) acc = dedupByCorrected fs rest acc := by
          simp [dedupByCorrected, hmed, hdup]
        rw [heq]
        exact ⟨it0, subset_dedupByCorrected fs rest acc it0 hit0, of_decide_eq_true hd⟩
      · have heq : dedupByCorrected fs (m :: rest) acc =
            dedupByCorrected fs rest (acc ++ [⟨m, correctPath m.str⟩]) := by
          simp [dedupByCorrected, hmed, hdup]
        rw [heq]
        exact ⟨⟨m, correctPath m.str⟩,
          subset_dedupByCorrected fs rest _ _ (by simp), rfl⟩
    · simp only [dedupByCorrected]
      split
      · split
        · exact ih acc m hm2 hmed
        · exact ih _ m hm2 hmed
      · exact ih acc m hm2 hmed

/-- Helper: the facts about `processed_matches` needed by the extractor
claims: distinct corrected paths, origin in the surviving matches,
normalization, media classification, earliest start per corrected path,
and completeness. -/
theorem processedMatches_spec (fs : List Char → Bool) (text : List Char) :
    ((processedMatches fs text).map fun it => it.corrected).Nodup ∧
    (∀ it ∈ processedMatches fs text,
      it.original ∈ allMatches text ∧
      it.corrected = correctPath it.original.str ∧
      isMedia fs it.corrected = true ∧
      ∀ m ∈ allMatches text, isMedia fs (correctPath m.str) = true →
        correctPath m.str = it.corrected → it.original.start ≤ m.start) ∧
    (∀ m ∈ allMatches text, isMedia fs (correctPath m.str) = true →
      ∃ it ∈ processedMatches fs text, it.corrected = correctPath m.str) := by
  have hsort : (allMatches text).Pairwise fun a b => a.start ≤ b.start := by
    unfold allMatches
    exact sortedByKey_pairwise _ _
  obtain ⟨p1, p2, p3⟩ := dedupByCorrected_spec fs (allMatches text) [] hsort
    (fun it hit => absurd hit (List.not_mem_nil it)) (by simp)
  have hperm : (processedMatches fs text).Perm (dedupByCorrected fs (allMatches text) []) := by
    unfold processedMatches
    exact sortedByKey_perm _ _
  refine ⟨?_, ?_, ?_⟩
  · exact (hperm.map fun it => it.corrected).nodup_iff.mpr p2
  · intro it hit
    have hit2 : it ∈ dedupByCorrected fs (allMatches text) [] := hperm.mem_iff.mp hit
    rcases p1 it hit2 with h | ⟨ho, hc, hm, _⟩
    · exact absurd h (List.not_mem_nil it)
    · exact ⟨ho, hc, hm, fun m hm2 hmed hkey => p3 it hit2 m hm2 hmed hkey⟩
  · intro m hm hmed
    obtain ⟨it, hit, hk⟩ := dedupByCorrected_complete fs (allMatches text) [] m hm hmed
    exact ⟨it, hperm.mem_iff.mpr hit, hk⟩

/-- C5 (counterexample): on `"a http://h/a.png b"` the emitted text
segments join to `"ab"`, while the original surrounding text (the
concatenation of the inter-match gaps) is `"a  b"` — the whitespace
adjacent to the media reference is stripped, so the round trip is not
verbatim; moreover the single visible media reference yields two matches
(the `http:` URL and its protocol-relative tail). -/
theorem verbatim_roundtrip_counterexample :
    String.join (textMsgs (emitLoop exTextC5 0 (processedMatches fsNone exTextC5))) = "ab" ∧
    String.join ((gapsFrom exTextC5 0 (processedMatches fsNone exTextC5)).map
      List.asString) = "a  b" ∧
    ("ab" : String) ≠ "a  b" ∧
    (processedMatches fsNone exTextC5).length = 2 :=
  ⟨by decide, by decide, by decide, by decide⟩

/-- C5 (amended): extraction returns the emitted matches ordered left to
right by start offset (a single `http:` reference may additionally yield
its protocol-relative tail as a second match), and the emitted text
segments are exactly the nonempty whitespace-stripped gaps between
consecutive match spans — concatenating them reproduces the original
surrounding text up to the whitespace stripped at each gap boundary and
the dropped whitespace-only gaps. -/
theorem ordered_matches_and_stripped_segments (fs : List Char → Bool) (text : List Char) :
    ((processedMatches fs text).Pairwise fun a b => a.original.start ≤ b.original.start) ∧
    textMsgs (emitLoop text 0 (processedMatches fs text)) =
      (((gapsFrom text 0 (processedMatches fs text)).map pyStripChars).filter
        fun g => g ≠ []).map List.asString := by
  constructor
  · unfold processedMatches
    exact sortedByKey_pairwise _ _
  · refine textMsgs_emitLoop text (processedMatches fs text) 0 ?_
    intro it hit
    exact hasExt_of_isMedia fs it.corrected ((processedMatches_spec fs text).2.1 it hit).2.2.1

/-- C6: the extractor emits at most one item per corrected path (and at
least one for every surviving media match); each emitted item is a
surviving match whose corrected path is the normalization of its raw
substring — protocol-relative matches get the `https:` scheme — and it
sits at the earliest start offset among the surviving media matches with
the same corrected path. -/
theorem dedup_by_corrected_path (fs : List Char → Bool) (text : List Char) :
    ((processedMatches fs text).map fun it => it.corrected).Nodup ∧
    (∀ it ∈ processedMatches fs text,
      it.original ∈ allMatches text ∧
      it.corrected = correctPath it.original.str ∧
      (("//".toList).isPrefixOf it.original.str →
        it.corrected = ("https:".toList) ++ it.original.str) ∧
      ∀ m ∈ allMatches text, isMedia fs (correctPath m.str) = true →
        correctPath m.str = it.corrected → it.original.start ≤ m.start) ∧
    (∀ m ∈ allMatches text, isMedia fs (correctPath m.str) = true →
      ∃ it ∈ processedMatches fs text, it.corrected = correctPath m.str) := by
  obtain ⟨p1, p2, p3⟩ := processedMatches_spec fs text
  refine ⟨p1, ?_, p3⟩
  intro it hit
  obtain ⟨ho, hc, _, hearliest⟩ := p2 it hit
  refine ⟨ho, hc, ?_, hearliest⟩
  intro hpref
  rw [hc]
  unfold correctPath
  rw [if_pos hpref]

/-- C6 (witness): on the spec's example input, the emitted item for
`https://host/a.png` is the protocol-relative occurrence at offset 0,
which starts no later than the explicit `https:` occurrence at offset 17;
the emitted corrected paths are distinct. -/
theorem dedup_by_corrected_path_witness :
    exItemC6.original.start ≤ exMatchC6.start ∧
    ((processedMatches fsNone exTextC6).map fun it => it.corrected).Nodup := by
  refine ⟨?_, (dedup_by_corrected_path fsNone exTextC6).1⟩
  have h := (dedup_by_corrected_path fsNone exTextC6).2.1 exItemC6 (by decide)
  exact h.2.2.2 exMatchC6 (by decide) (by decide) (by decide)

/-- C10: once the event's media-processed flag is set, a further run of
`on_llm_response_handler` sends no messages, leaves the response (in
particular its completion text) unchanged, and keeps the flag set. -/
theorem response_handler_idempotent_after_flag (fs : List Char → Bool)
    (resp : LLMResponse) :
    onLlmResponseHandler fs true resp = ⟨[], resp, true⟩ := by
  simp [onLlmResponseHandler]

end Main

end ToolPrompts
